import Mathlib

/-!
Shallow embedding of the aeromessage core (src/oxidized) and verification of
its specification claims.

Rust strings are modelled as Lean `String` (operating on their `Char` lists),
byte blobs as `List Nat`, `i64`/`i32` as `Int`, `chrono` timestamps as the
underlying Unix-seconds `Int`, and `HashMap` caches as association lists
whose newest binding wins.
-/

namespace Aeromessage

/-! ## Timestamp normalizer (src/lib.rs) -/

/-- Constant `APPLE_EPOCH_OFFSET` from src/lib.rs: seconds from 1970-01-01 to 2001-01-01. -/
def APPLE_EPOCH_OFFSET : Int := 978307200

/-- Embedding of `apple_to_unix` (src/lib.rs).  Rust `/` on `i64` truncates
toward zero, which `Int.tdiv` matches; the branch only divides when
`apple_ts > 10^12`, so the operands are positive there anyway. -/
def apple_to_unix (apple_ts : Int) : Int :=
  let ts := if apple_ts > 1000000000000 then Int.tdiv apple_ts 1000000000 else apple_ts
  ts + APPLE_EPOCH_OFFSET

/-! ## Identity resolver (src/contacts.rs) -/

/-- Embedding of `normalize_phone` (src/contacts.rs): keep only ASCII digits
and `+`, preserving order. -/
def normalize_phone (phone : String) : String :=
  String.mk (phone.data.filter (fun c => c.isDigit || c == '+'))

/-- Prefix test `p.data.isPrefixOf s.data`: the char-level model of Rust
`str::starts_with` (byte and char positions agree on the ASCII markers
used in this code base). -/
def strStartsWith (s p : String) : Bool :=
  p.data.isPrefixOf s.data

/-- Drop the first `n` characters of a string (model of Rust byte slicing
`&s[n..]` for the ASCII fixed-width markers used in this code base). -/
def strDrop (s : String) (n : Nat) : String :=
  String.mk (s.data.drop n)

/-- The `ContactResolver` cache: an association list standing for the Rust
`HashMap<String, String>`.  `cacheGet` returns the newest binding for a key
(`add` prepends), matching `HashMap::insert` overwrite semantics
observationally. -/
def Cache : Type := List (String × String)

/-- Lookup in the cache: first (newest) binding wins. -/
def cacheGet (c : Cache) (k : String) : Option String :=
  match c with
  | [] => none
  | (k', v) :: rest => if k' == k then some v else cacheGet rest k

/-- Embedding of `ContactResolver::add` (src/contacts.rs): no-op when the
identifier or the name is empty, otherwise overwrite. -/
def addContact (c : Cache) (identifier name : String) : Cache :=
  if !identifier.isEmpty && !name.isEmpty then (identifier, name) :: c else c

/-- Embedding of `ContactResolver::resolve` (src/contacts.rs): raw lookup,
then normalized lookup, then (when the normalized form starts with `+1`)
lookup with the first two characters stripped. -/
def resolve (c : Cache) (identifier : String) : Option String :=
  match cacheGet c identifier with
  | some name => some name
  | none =>
    let normalized := normalize_phone identifier
    match cacheGet c normalized with
    | some name => some name
    | none =>
      if strStartsWith normalized "+1" then
        cacheGet c (strDrop normalized 2)
      else
        none

/-! ## Data model (src/models.rs) -/

/-- Table `REACTION_EMOJI` (src/models.rs): associated_message_type codes to emoji. -/
def REACTION_EMOJI : List (Int × String) :=
  [(2000, "❤️"), (2001, "👍"), (2002, "👎"), (2003, "😂"),
   (2004, "‼️"), (2005, "❓"), (2006, "🫶")]

/-- Embedding of `reaction_emoji` (src/models.rs). -/
def reaction_emoji (code : Int) : Option String :=
  (REACTION_EMOJI.find? (fun p => p.1 == code)).map (·.2)

structure Attachment where
  filename : String
  mime_type : String
  transfer_name : String
deriving DecidableEq

structure Reaction where
  emoji : String
  is_from_me : Bool
  sender : Option String
deriving DecidableEq

/-- A message; `date` is the Unix-seconds value of the `chrono` timestamp. -/
structure Message where
  rowid : Int
  guid : String
  text : String
  date : Int
  is_from_me : Bool
  sender : Option String
  attachments : List Attachment
  reactions : List Reaction
deriving DecidableEq

/-- The Unicode `White_Space` code points, i.e. the characters Rust
`char::is_whitespace` accepts (used by `str::trim`). -/
def isRustWhitespace (c : Char) : Bool :=
  let n := c.toNat
  (0x9 ≤ n && n ≤ 0xD) || n == 0x20 || n == 0x85 || n == 0xA0 || n == 0x1680 ||
  (0x2000 ≤ n && n ≤ 0x200A) || n == 0x2028 || n == 0x2029 || n == 0x202F ||
  n == 0x205F || n == 0x3000

/-- Remove leading and trailing whitespace characters: model of `str::trim`. -/
def trimChars (l : List Char) : List Char :=
  ((l.dropWhile isRustWhitespace).reverse.dropWhile isRustWhitespace).reverse

/-- String wrapper around `trimChars`. -/
def strTrim (s : String) : String :=
  String.mk (trimChars s.data)

/-- Model of `text.replace('\u{FFFC}', "").trim()`: remove every attachment
placeholder, then trim. -/
def normalizeDisplay (s : String) : String :=
  strTrim (String.mk (s.data.filter (fun c => !(c == '\uFFFC'))))

/-- Embedding of `Message::display_text` (src/models.rs). -/
def Message.display_text (m : Message) : String :=
  normalizeDisplay m.text

/-- Embedding of `Attachment::is_image` (src/models.rs). -/
def Attachment.is_image (a : Attachment) : Bool :=
  strStartsWith a.mime_type "image/"

/-- Embedding of `Message::is_image_only` (src/models.rs). -/
def Message.is_image_only (m : Message) : Bool :=
  m.attachments.any (·.is_image) && m.display_text.isEmpty

/-- The `seen` loop of `Message::reaction_summary` (src/models.rs): push each
emoji not yet seen, in arrival order. -/
def collectEmojis : List Reaction → List String → List String
  | [], seen => seen
  | r :: rs, seen =>
    if seen.contains r.emoji then collectEmojis rs seen
    else collectEmojis rs (seen ++ [r.emoji])

/-- Embedding of `Message::reaction_summary` (src/models.rs). -/
def Message.reaction_summary (m : Message) : String :=
  String.join (collectEmojis m.reactions [])

/-- A conversation; `last_message_date` is modelled as Unix seconds. -/
structure Conversation where
  chat_id : Int
  display_name : Option String
  chat_identifier : String
  style : Int
  unread_count : Int
  last_message_date : Int
  messages : List Message
  participants : List String
  resolved_name : Option String
deriving DecidableEq

/-- Embedding of `Conversation::is_group` (src/models.rs). -/
def Conversation.is_group (c : Conversation) : Bool :=
  c.style == 43

/-- Fall-through of `Conversation::name` once the display name has been
rejected: resolved name, else chat identifier. -/
def nameFallback (c : Conversation) : String :=
  match c.resolved_name with
  | some r => r
  | none => c.chat_identifier

/-- Embedding of `Conversation::name` (src/models.rs): a present, non-empty
display name wins; otherwise resolved name; otherwise chat identifier. -/
def Conversation.name (c : Conversation) : String :=
  match c.display_name with
  | some n => if !n.isEmpty then n else nameFallback c
  | none => nameFallback c

/-! ## Binary text decoder (src/db.rs, `parse_attributed_body`) -/

/-- The `NSString` marker bytes. -/
def nsMarker : List Nat := [0x4E, 0x53, 0x53, 0x74, 0x72, 0x69, 0x6E, 0x67]

/-- First position at which `pat` occurs in `l`: the model of
`blob.windows(pat.len()).position(|w| w == pat)`. -/
def findFrom (pat : List Nat) : List Nat → Option Nat
  | [] => if pat.isPrefixOf ([] : List Nat) then some 0 else none
  | b :: t =>
    if pat.isPrefixOf (b :: t) then some 0
    else (findFrom pat t).map (· + 1)

/-- The `(length, start)` computation of `parse_attributed_body`: a `0x81`
first byte with at least three bytes available means a 2-byte little-endian
length starting one byte later; otherwise the first byte is the length. -/
def lenStart : List Nat → Nat × Nat
  | b :: b1 :: b2 :: _ => if b == 0x81 then (b1 + 256 * b2, 3) else (b, 1)
  | b :: _ => (b, 1)
  | [] => (0, 1)

/-- Is `b` a UTF-8 continuation byte? -/
def isCont (b : Nat) : Bool := 0x80 ≤ b && b ≤ 0xBF

/-- Admissible second byte of a 3-byte UTF-8 sequence headed by `b`. -/
def utf8Second3 (b b2 : Nat) : Bool :=
  if b == 0xE0 then 0xA0 ≤ b2 && b2 ≤ 0xBF
  else if b == 0xED then 0x80 ≤ b2 && b2 ≤ 0x9F
  else isCont b2

/-- Admissible second byte of a 4-byte UTF-8 sequence headed by `b`. -/
def utf8Second4 (b b2 : Nat) : Bool :=
  if b == 0xF0 then 0x90 ≤ b2 && b2 ≤ 0xBF
  else if b == 0xF4 then 0x80 ≤ b2 && b2 ≤ 0x8F
  else isCont b2

/-- UTF-8 decoding of a byte list, with the exact validity rules of Rust
`String::from_utf8` (RFC 3629: no overlong forms, no surrogates, max
U+10FFFF); `none` on invalid input. -/
def utf8Decode : List Nat → Option (List Char)
  | [] => some []
  | b :: rest =>
    if b ≤ 0x7F then
      (utf8Decode rest).map (fun cs => Char.ofNat b :: cs)
    else if 0xC2 ≤ b && b ≤ 0xDF then
      match rest with
      | b2 :: rest2 =>
        if isCont b2 then
          (utf8Decode rest2).map (fun cs =>
            Char.ofNat ((b - 0xC0) * 0x40 + (b2 - 0x80)) :: cs)
        else none
      | [] => none
    else if 0xE0 ≤ b && b ≤ 0xEF then
      match rest with
      | b2 :: b3 :: rest3 =>
        if utf8Second3 b b2 && isCont b3 then
          (utf8Decode rest3).map (fun cs =>
            Char.ofNat ((b - 0xE0) * 0x1000 + (b2 - 0x80) * 0x40 + (b3 - 0x80)) :: cs)
        else none
      | _ => none
    else if 0xF0 ≤ b && b ≤ 0xF4 then
      match rest with
      | b2 :: b3 :: b4 :: rest4 =>
        if utf8Second4 b b2 && isCont b3 && isCont b4 then
          (utf8Decode rest4).map (fun cs =>
            Char.ofNat ((b - 0xF0) * 0x40000 + (b2 - 0x80) * 0x1000 +
              (b3 - 0x80) * 0x40 + (b4 - 0x80)) :: cs)
        else none
      | _ => none
    else none

/-- The tail of `parse_attributed_body` operating on the bytes after the
marker and the 5-byte gap: the emptiness check, the `(length, start)`
decoding, the bounds check `start + length > data.len()`, and the UTF-8
decoding of `data[start..start + length]`. -/
def parseTail (data : List Nat) : Option String :=
  if data.isEmpty then none
  else
    let ls := lenStart data
    if ls.2 + ls.1 > data.length then none
    else (utf8Decode ((data.drop ls.2).take ls.1)).map String.mk

/-- Embedding of `parse_attributed_body` (src/db.rs): find the `NSString`
marker, skip a 5-byte gap, read the declared length, bounds-check it, and
UTF-8-decode the payload. -/
def parse_attributed_body (blob : List Nat) : Option String :=
  match findFrom nsMarker blob with
  | none => none
  | some pos =>
    let after := blob.drop (pos + nsMarker.length)
    if after.length < 6 then none
    else parseTail (after.drop 5)

/-- Slicing `&l[i..]` with Rust's panic condition made explicit: `none` would be an
out-of-bounds panic. -/
def sliceFrom (l : List Nat) (i : Nat) : Option (List Nat) :=
  if i ≤ l.length then some (l.drop i) else none

/-- Slicing `&l[i..j]` with Rust's panic condition made explicit. -/
def sliceTo (l : List Nat) (i j : Nat) : Option (List Nat) :=
  if i ≤ j ∧ j ≤ l.length then some ((l.take j).drop i) else none

/-- The tail of the parser with every Rust indexing operation
(`data[0]`, `data[1]`, `data[2]`, `&data[start..start + length]`) routed
through its explicit panic condition: the outer `none` marks a panic. -/
def parseCheckedTail (data : List Nat) : Option (Option String) :=
  if data.isEmpty then some none
  else
    match data.get? 0 with
    | none => none
    | some b0 =>
      match (if b0 == 0x81 && decide (3 ≤ data.length) then
               match data.get? 1, data.get? 2 with
               | some b1, some b2 => some (b1 + 256 * b2, 3)
               | _, _ => none
             else some (b0, 1)) with
      | none => none
      | some ls =>
        if ls.2 + ls.1 > data.length then some none
        else
          match sliceTo data ls.2 (ls.2 + ls.1) with
          | none => none
          | some payload => some ((utf8Decode payload).map String.mk)

/-- Variant of `parse_attributed_body` with every Rust indexing / slicing operation
routed through its explicit panic condition: the outer `none` marks a panic,
`some r` means the function returns `r` without panicking. -/
def parseCheckedBody (blob : List Nat) : Option (Option String) :=
  match findFrom nsMarker blob with
  | none => some none
  | some pos =>
    match sliceFrom blob (pos + nsMarker.length) with
    | none => none
    | some after =>
      if after.length < 6 then some none
      else
        match sliceFrom after 5 with
        | none => none
        | some data => parseCheckedTail data

/-! ## Store connector rows and message assembly (src/db.rs) -/

/-- One fetched message row, as produced by the `load_messages` query. -/
structure MsgRow where
  rowid : Int
  guid : String
  text : Option String
  attributedBody : Option (List Nat)
  date : Int
  is_from_me : Bool
  cache_has_attachments : Bool
  sender : Option String
deriving DecidableEq

/-- Model of `text.filter(|t| !t.is_empty()).or_else(|| body.and_then(parse)).unwrap_or_default()`. -/
def finalTextOf (text : Option String) (body : Option (List Nat)) : String :=
  match (match text with
         | some t => if t.isEmpty then none else some t
         | none => none) with
  | some t => t
  | none =>
    match body.bind parse_attributed_body with
    | some t => t
    | none => ""

/-- Attachments loaded for a row: the `load_attachments` call happens only
when the `cache_has_attachments` flag is set.  `atts` stands for the result
of `load_attachments` per message rowid (empty filenames already dropped
inside that query). -/
def attachmentsFor (atts : Int → List Attachment) (r : MsgRow) : List Attachment :=
  if r.cache_has_attachments then atts r.rowid else []

/-- Least Unix second `chrono` can represent: midnight of `NaiveDate::MIN`
(January 1 of year −262144).  Below it `DateTime::from_timestamp` returns
`None`. -/
def CHRONO_MIN_SECS : Int := -8334632937600

/-- Greatest Unix second `chrono` can represent: the last second of
`NaiveDate::MAX` (December 31 of year 262143). -/
def CHRONO_MAX_SECS : Int := 8210298412799

/-- Model of `DateTime::from_timestamp(unix_ts, 0).unwrap_or_else(Utc::now)`
(src/db.rs line 175): the converted timestamp when `chrono` can represent
it, otherwise the current wall-clock time `now` (a parameter of the model,
since the program reads the clock). -/
def dateFromTimestamp (now unix : Int) : Int :=
  if CHRONO_MIN_SECS ≤ unix ∧ unix ≤ CHRONO_MAX_SECS then unix else now

/-- The message built from a retained row; `now` models `Utc::now()`, used
only on the `DateTime::from_timestamp` out-of-range fallback path. -/
def msgOfRow (now : Int) (atts : Int → List Attachment) (r : MsgRow) : Message :=
  ⟨r.rowid, r.guid, finalTextOf r.text r.attributedBody,
   dateFromTimestamp now (apple_to_unix r.date),
   r.is_from_me, r.sender, attachmentsFor atts r, []⟩

/-- The retention test of the `load_messages` loop (src/db.rs line 185):
keep a row only if its final text survives a plain `trim` or it has
attachments. -/
def keepRow (atts : Int → List Attachment) (r : MsgRow) : Bool :=
  !(strTrim (finalTextOf r.text r.attributedBody)).isEmpty ||
  !(attachmentsFor atts r).isEmpty

/-- The row loop of `load_messages`: build and filter the fetched rows in
arrival order. -/
def buildMessages (now : Int) (atts : Int → List Attachment) : List MsgRow → List Message
  | [] => []
  | r :: rs =>
    if keepRow atts r then msgOfRow now atts r :: buildMessages now atts rs
    else buildMessages now atts rs

/-! ## Reaction resolver (src/db.rs, `load_reactions`) -/

/-- One fetched annotation row (`associated_message_guid`,
`associated_message_type`, `is_from_me`, sender handle). -/
structure AnnotRow where
  associated_message_guid : String
  associated_message_type : Int
  is_from_me : Bool
  sender : Option String
deriving DecidableEq

/-- Split a character list at every `'/'`, the model of Rust `split('/')`. -/
def splitOnSlash : List Char → List (List Char)
  | [] => [[]]
  | c :: rest =>
    match splitOnSlash rest with
    | [] => [[]]
    | h :: t => if c == '/' then [] :: h :: t else (c :: h) :: t

/-- Embedding of the target-GUID extraction in `load_reactions`:
`split('/').nth(1)` for `p:`-prefixed strings, strip three characters for
`bp:`-prefixed ones, otherwise the raw string. -/
def targetGuidOf (assoc : String) : Option String :=
  if strStartsWith assoc "p:" then
    ((splitOnSlash assoc.data).get? 1).map String.mk
  else if strStartsWith assoc "bp:" then
    some (strDrop assoc 3)
  else
    some assoc

/-- Index of the last message carrying GUID `g`: the value the Rust
`HashMap` built from `enumerate()` holds, since later inserts overwrite. -/
def lastIdxWith (g : String) : List Message → Option Nat
  | [] => none
  | m :: ms =>
    match lastIdxWith g ms with
    | some i => some (i + 1)
    | none => if m.guid == g then some 0 else none

/-- Apply `f` to the element at index `i`. -/
def modifyAt (i : Nat) (f : Message → Message) : List Message → List Message
  | [] => []
  | m :: ms =>
    match i with
    | 0 => f m :: ms
    | n + 1 => m :: modifyAt n f ms

/-- Push one reaction onto a message's reaction list. -/
def pushReaction (row : AnnotRow) (emoji : String) (m : Message) : Message :=
  ⟨m.rowid, m.guid, m.text, m.date, m.is_from_me, m.sender, m.attachments,
   m.reactions ++ [⟨emoji, row.is_from_me, row.sender⟩]⟩

/-- One iteration of the `load_reactions` row loop: decode the target GUID,
look it up, and if the annotation code is recognized append a reaction. -/
def applyAnnotRow (msgs : List Message) (row : AnnotRow) : List Message :=
  match targetGuidOf row.associated_message_guid with
  | none => msgs
  | some target =>
    match lastIdxWith target msgs with
    | none => msgs
    | some idx =>
      match reaction_emoji row.associated_message_type with
      | none => msgs
      | some e => modifyAt idx (pushReaction row e) msgs

/-- Embedding of `Database::load_reactions` (src/db.rs): fold the annotation
rows over the message list in arrival order. -/
def load_reactions (msgs : List Message) (rows : List AnnotRow) : List Message :=
  rows.foldl applyAnnotRow msgs

/-- Embedding of the pure tail of `Database::load_messages` (src/db.rs): the
fetched rows are built and filtered, reactions are attached, and the result
is reversed into chronological order.  `now` models `Utc::now()`, `atts`
stands for the `load_attachments` query and `annots` for the annotation
rows the reaction query returns. -/
def load_messages (now : Int) (atts : Int → List Attachment) (annots : List AnnotRow)
    (rows : List MsgRow) : List Message :=
  (load_reactions (buildMessages now atts rows) annots).reverse

/-! ## Claim C2: the concrete timestamp pair -/

/-- C2, counterexample: the claim asserts `normalize(725846400)` is Unix
`1704067200` (2024-01-01T00:00:00Z); the code yields `1704153600`
(2024-01-02T00:00:00Z), since `725846400 + 978307200 = 1704153600`. -/
theorem claim_C2_counterexample :
    apple_to_unix 725846400 = 1704153600 ∧ (1704153600 : Int) ≠ 1704067200 := by
  decide

/-- C2 (amended): the anchor-relative timestamps `725846400` (seconds) and
`725846400000000000` (nanoseconds) both normalize to the same absolute
timestamp, namely Unix `1704153600` (2024-01-02T00:00:00Z). -/
theorem claim_C2_theorem :
    apple_to_unix 725846400 = apple_to_unix 725846400000000000 ∧
    apple_to_unix 725846400 = 1704153600 := by
  decide

/-! ## Claim C3: the disambiguation rule of the normalizer -/

/-- C3, counterexample: at `t = -1000000000001` the magnitude exceeds
`10^12`, so the claim demands the nanosecond interpretation
(`t / 10^9 + 978307200 = 978306200`), but the code compares with signed `>`
and returns the seconds interpretation `-999021692801`. -/
theorem claim_C3_counterexample :
    (1000000000000 : Int) < |(-1000000000001 : Int)| ∧
    apple_to_unix (-1000000000001) = -999021692801 ∧
    Int.tdiv (-1000000000001) 1000000000 + 978307200 = 978306200 ∧
    (-999021692801 : Int) ≠ 978306200 := by
  decide

/-- C3 (amended): for every 64-bit signed input `t`, if `t` itself (signed
comparison, not the magnitude) exceeds `10^12` the result is `t` divided by
`10^9` (truncating division) plus `978307200`; otherwise — including
negative values of large magnitude — the result is `t + 978307200`. -/
theorem claim_C3_theorem (t : Int) (hlo : -(2 ^ 63) ≤ t) (hhi : t < 2 ^ 63) :
    (1000000000000 < t → apple_to_unix t = Int.tdiv t 1000000000 + 978307200) ∧
    (t ≤ 1000000000000 → apple_to_unix t = t + 978307200) := by
  constructor
  · intro h
    simp only [apple_to_unix, APPLE_EPOCH_OFFSET, if_pos h]
  · intro h
    simp only [apple_to_unix, APPLE_EPOCH_OFFSET, if_neg (not_lt.mpr h)]

/-- C3, witness: the amended rule evaluated at `2 * 10^12` (nanoseconds
branch) and `-5` (seconds branch). -/
theorem claim_C3_witness :
    apple_to_unix 2000000000000 = Int.tdiv 2000000000000 1000000000 + 978307200 ∧
    apple_to_unix (-5) = -5 + 978307200 :=
  ⟨(claim_C3_theorem 2000000000000 (by decide) (by decide)).1 (by decide),
   (claim_C3_theorem (-5) (by decide) (by decide)).2 (by decide)⟩

/-! ## Claim C10: the conversation name accessor -/

/-- C10: `Conversation::name` returns the stored display name when present
and non-empty; otherwise the resolved name when present; otherwise the chat
identifier — a present-but-empty display name is skipped. -/
theorem claim_C10_theorem (c : Conversation) :
    (∀ n, c.display_name = some n → n.isEmpty = false → c.name = n) ∧
    ((c.display_name = none ∨ c.display_name = some "") →
      (∀ r, c.resolved_name = some r → c.name = r) ∧
      (c.resolved_name = none → c.name = c.chat_identifier)) := by
  refine ⟨?_, ?_⟩
  · intro n hd hne
    simp [Conversation.name, hd, hne]
  · intro hd
    refine ⟨?_, ?_⟩
    · intro r hr
      rcases hd with h | h <;> simp [Conversation.name, nameFallback, h, hr, String.isEmpty]
    · intro hr
      rcases hd with h | h <;> simp [Conversation.name, nameFallback, h, hr, String.isEmpty]

/-- Concrete conversations exercising the three branches of
`Conversation::name`. -/
def convDisplay : Conversation :=
  ⟨1, some "Group Chat", "+15551234567", 45, 1, 0, [], [], some "John Doe"⟩

/-- A conversation with a present-but-empty display name. -/
def convEmptyDisplay : Conversation :=
  ⟨1, some "", "+15551234567", 45, 1, 0, [], [], some "John"⟩

/-- A conversation with no display name and no resolved name. -/
def convBare : Conversation :=
  ⟨1, none, "chat123", 45, 1, 0, [], [], none⟩

/-- C10, witness: the three branches at concrete conversations; the empty
display name is skipped in favour of the resolved name. -/
theorem claim_C10_witness :
    convDisplay.name = "Group Chat" ∧ convEmptyDisplay.name = "John" ∧
    convBare.name = "chat123" :=
  ⟨(claim_C10_theorem convDisplay).1 "Group Chat" rfl (by decide),
   ((claim_C10_theorem convEmptyDisplay).2 (Or.inr rfl)).1 "John" rfl,
   ((claim_C10_theorem convBare).2 (Or.inl rfl)).2 rfl⟩

/-! ## Claim C6: identity resolution order -/

/-- C6: `resolve` returns the first hit among (a) the raw identifier,
(b) the normalized identifier (ASCII digits and `+` only), (c) when the
normalized form starts with `+1`, that form with two characters stripped,
and absence when none match; adding `("+15551234567", "Jane")` resolves
`"+1 (555) 123-4567"`, and adding only `("5551234567", "Bob")` resolves
`"+15551234567"`. -/
theorem claim_C6_theorem :
    (∀ (c : Cache) (ident n : String),
      cacheGet c ident = some n → resolve c ident = some n) ∧
    (∀ (c : Cache) (ident n : String), cacheGet c ident = none →
      cacheGet c (normalize_phone ident) = some n → resolve c ident = some n) ∧
    (∀ (c : Cache) (ident n : String), cacheGet c ident = none →
      cacheGet c (normalize_phone ident) = none →
      strStartsWith (normalize_phone ident) "+1" = true →
      cacheGet c (strDrop (normalize_phone ident) 2) = some n →
      resolve c ident = some n) ∧
    (∀ (c : Cache) (ident : String), cacheGet c ident = none →
      cacheGet c (normalize_phone ident) = none →
      (strStartsWith (normalize_phone ident) "+1" = true →
        cacheGet c (strDrop (normalize_phone ident) 2) = none) →
      resolve c ident = none) ∧
    resolve (addContact [] "+15551234567" "Jane") "+1 (555) 123-4567" = some "Jane" ∧
    resolve (addContact [] "5551234567" "Bob") "+15551234567" = some "Bob" := by
  refine ⟨?_, ?_, ?_, ?_, by decide, by decide⟩
  · intro c ident n h
    simp [resolve, h]
  · intro c ident n h1 h2
    simp [resolve, h1, h2]
  · intro c ident n h1 h2 h3 h4
    simp [resolve, h1, h2, h3, h4]
  · intro c ident h1 h2 h3
    by_cases hp : strStartsWith (normalize_phone ident) "+1" = true
    · simp [resolve, h1, h2, hp, h3 hp]
    · simp [resolve, h1, h2, hp]

/-- C6, witness: each lookup tier applied at a concrete cache. -/
theorem claim_C6_witness :
    resolve [("k", "v")] "k" = some "v" ∧
    resolve [("+15551234567", "Jane")] "+1 (555) 123-4567" = some "Jane" ∧
    resolve [("5551234567", "Bob")] "+15551234567" = some "Bob" ∧
    resolve [("x", "y")] "zzz" = none :=
  ⟨claim_C6_theorem.1 [("k", "v")] "k" "v" (by decide),
   claim_C6_theorem.2.1 [("+15551234567", "Jane")] "+1 (555) 123-4567" "Jane"
     (by decide) (by decide),
   claim_C6_theorem.2.2.1 [("5551234567", "Bob")] "+15551234567" "Bob"
     (by decide) (by decide) (by decide) (by decide),
   claim_C6_theorem.2.2.2.1 [("x", "y")] "zzz" (by decide) (by decide) (by decide)⟩

/-! ## Claim C8: reaction summary deduplication -/

/-- The spec's description of the summary list: "duplicates removed,
preserving first-seen order" — keep each head and delete its later
occurrences. -/
def specDedupKeepFirst (l : List String) : List String :=
  match l with
  | [] => []
  | x :: xs => x :: specDedupKeepFirst (xs.filter (fun y => !(y == x)))
termination_by l.length
decreasing_by
  simp only [List.length_cons]
  exact Nat.lt_succ_of_le (List.length_filter_le _ _)

theorem filter_seen_append (x : String) (l seen : List String) :
    l.filter (fun e => !((seen ++ [x]).contains e)) =
      (l.filter (fun e => !(seen.contains e))).filter (fun y => !(y == x)) := by
  rw [List.filter_filter]
  apply List.filter_congr
  intro a _
  simp only [List.contains, List.elem_eq_mem, List.mem_append, List.mem_singleton,
    Bool.decide_or, Bool.not_or]
  have hbe : (a == x) = decide (a = x) := by
    by_cases h : a = x <;> simp [h]
  rw [hbe, Bool.and_comm]

theorem collectEmojis_eq (rs : List Reaction) (seen : List String) :
    collectEmojis rs seen =
      seen ++ specDedupKeepFirst
        ((rs.map Reaction.emoji).filter (fun e => !(seen.contains e))) := by
  induction rs generalizing seen with
  | nil => simp [collectEmojis, specDedupKeepFirst]
  | cons r rs ih =>
    by_cases hm : r.emoji ∈ seen
    · rw [show collectEmojis (r :: rs) seen = collectEmojis rs seen from by
        simp [collectEmojis, List.contains, hm]]
      rw [ih]
      simp [List.filter_cons, hm]
    · rw [show collectEmojis (r :: rs) seen = collectEmojis rs (seen ++ [r.emoji]) from by
        simp [collectEmojis, List.contains, hm]]
      rw [ih, filter_seen_append]
      simp only [List.map_cons, List.filter_cons]
      rw [show (!(seen.contains r.emoji)) = true from by simp [List.contains, hm]]
      rw [if_pos rfl]
      rw [specDedupKeepFirst]
      simp

/-- Concrete message with reaction symbols `[A, B, A]`. -/
def msgABA : Message :=
  ⟨1, "g", "Hello", 0, false, none, [],
   [⟨"A", false, none⟩, ⟨"B", false, none⟩, ⟨"A", true, none⟩]⟩

/-- C8: for every message, `reaction_summary` is the concatenation of the
reactions' symbols with duplicates removed, preserving first-seen order;
concretely, symbols `[A, B, A]` summarize to `"AB"`. -/
theorem claim_C8_theorem :
    (∀ m : Message, m.reaction_summary =
      String.join (specDedupKeepFirst (m.reactions.map Reaction.emoji))) ∧
    msgABA.reaction_summary = "AB" := by
  constructor
  · intro m
    rw [Message.reaction_summary, collectEmojis_eq]
    simp
  · decide

/-! ## Claims C5 and C7: the binary text decoder -/

theorem findFrom_none (pat b : List Nat) (h : ∀ i, ¬ pat <+: b.drop i) :
    findFrom pat b = none := by
  induction b with
  | nil =>
    have h0 := h 0
    simp only [List.drop_nil] at h0
    simp [findFrom, h0]
  | cons x t ih =>
    have h0 := h 0
    simp only [List.drop_zero] at h0
    rw [findFrom]
    rw [if_neg (by simpa using h0)]
    rw [ih (fun i => by simpa using h (i + 1))]
    rfl

theorem findFrom_le (pat b : List Nat) (pos : Nat) (h : findFrom pat b = some pos) :
    pos + pat.length ≤ b.length := by
  induction b generalizing pos with
  | nil =>
    rw [findFrom] at h
    by_cases hp : pat.isPrefixOf ([] : List Nat)
    · rw [if_pos hp] at h
      have : pat = [] := by simpa [List.prefix_nil] using hp
      simp_all
    · rw [if_neg hp] at h
      exact absurd h (by simp)
  | cons x t ih =>
    rw [findFrom] at h
    by_cases hp : pat.isPrefixOf (x :: t)
    · rw [if_pos hp] at h
      have hpos : pos = 0 := by simpa using h.symm
      subst hpos
      have : pat <+: (x :: t) := by simpa using hp
      simpa using this.length_le
    · rw [if_neg hp] at h
      rcases Option.map_eq_some'.mp h with ⟨p', hp', rfl⟩
      have := ih p' hp'
      simp only [List.length_cons]
      omega

theorem parseCheckedTail_eq (data : List Nat) :
    parseCheckedTail data = some (parseTail data) := by
  match data with
  | [] => rfl
  | [d0] =>
    rw [parseCheckedTail, parseTail]
    simp only [List.isEmpty_cons, Bool.false_eq_true, if_false]
    dsimp only [List.get?]
    rw [if_neg (by simp : ¬ (d0 == 0x81 && decide (3 ≤ ([d0] : List Nat).length)) = true)]
    rw [show lenStart [d0] = (d0, 1) from rfl]
    dsimp only
    by_cases hb : 1 + d0 > ([d0] : List Nat).length
    · rw [if_pos hb, if_pos hb]
    · rw [if_neg hb, if_neg hb]
      rw [show sliceTo [d0] 1 (1 + d0) = some ((([d0] : List Nat).take (1 + d0)).drop 1) from by
        rw [sliceTo, if_pos ⟨by omega, by omega⟩]]
      rw [← List.take_drop]
  | [d0, d1] =>
    rw [parseCheckedTail, parseTail]
    simp only [List.isEmpty_cons, Bool.false_eq_true, if_false]
    dsimp only [List.get?]
    rw [if_neg (by simp : ¬ (d0 == 0x81 && decide (3 ≤ ([d0, d1] : List Nat).length)) = true)]
    rw [show lenStart [d0, d1] = (d0, 1) from rfl]
    dsimp only
    by_cases hb : 1 + d0 > ([d0, d1] : List Nat).length
    · rw [if_pos hb, if_pos hb]
    · rw [if_neg hb, if_neg hb]
      rw [show sliceTo [d0, d1] 1 (1 + d0) =
            some ((([d0, d1] : List Nat).take (1 + d0)).drop 1) from by
        rw [sliceTo, if_pos ⟨by omega, by omega⟩]]
      rw [← List.take_drop]
  | d0 :: d1 :: d2 :: r =>
    rw [parseCheckedTail, parseTail]
    simp only [List.isEmpty_cons, Bool.false_eq_true, if_false]
    dsimp only [List.get?]
    by_cases h81 : d0 = 0x81
    · subst h81
      rw [if_pos (by simp only [List.length_cons, beq_self_eq_true, Bool.true_and,
            decide_eq_true_eq]; omega :
          ((0x81 : Nat) == 0x81 &&
            decide (3 ≤ (0x81 :: d1 :: d2 :: r : List Nat).length)) = true)]
      rw [show lenStart (0x81 :: d1 :: d2 :: r) = (d1 + 256 * d2, 3) from by
        rw [lenStart, if_pos (by simp)]]
      dsimp only
      by_cases hb : 3 + (d1 + 256 * d2) > (0x81 :: d1 :: d2 :: r : List Nat).length
      · rw [if_pos hb, if_pos hb]
      · rw [if_neg hb, if_neg hb]
        rw [show sliceTo (0x81 :: d1 :: d2 :: r) 3 (3 + (d1 + 256 * d2)) =
              some (((0x81 :: d1 :: d2 :: r : List Nat).take (3 + (d1 + 256 * d2))).drop 3) from by
          rw [sliceTo, if_pos ⟨by omega, by omega⟩]]
        rw [← List.take_drop]
    · rw [if_neg (by simp [h81] :
          ¬ (d0 == 0x81 && decide (3 ≤ (d0 :: d1 :: d2 :: r : List Nat).length)) = true)]
      rw [show lenStart (d0 :: d1 :: d2 :: r) = (d0, 1) from by
        rw [lenStart, if_neg (by simp [h81])]]
      dsimp only
      by_cases hb : 1 + d0 > (d0 :: d1 :: d2 :: r : List Nat).length
      · rw [if_pos hb, if_pos hb]
      · rw [if_neg hb, if_neg hb]
        rw [show sliceTo (d0 :: d1 :: d2 :: r) 1 (1 + d0) =
              some (((d0 :: d1 :: d2 :: r : List Nat).take (1 + d0)).drop 1) from by
          rw [sliceTo, if_pos ⟨by omega, by omega⟩]]
        rw [← List.take_drop]

/-- The 5-byte structural gap following the marker. -/
def gapBytes : List Nat := [0, 0, 0, 0, 0]

/-- ASCII bytes of `"Hello"`. -/
def helloBytes : List Nat := [72, 101, 108, 108, 111]

/-- Marker, 5-byte gap, length byte `5`, `"Hello"`. -/
def blobHello : List Nat := nsMarker ++ gapBytes ++ [5] ++ helloBytes

/-- ASCII bytes of `"0123456789"`. -/
def digitBytes : List Nat := [48, 49, 50, 51, 52, 53, 54, 55, 56, 57]

/-- Marker, gap, `0x81`, little-endian `10`, ten ASCII digits. -/
def blobDigits : List Nat := nsMarker ++ gapBytes ++ [0x81] ++ [10, 0] ++ digitBytes

/-- Marker, gap, declared length `100`, but only the five bytes `"short"`. -/
def blobShort : List Nat := nsMarker ++ gapBytes ++ [100] ++ [115, 104, 111, 114, 116]

/-- C5: the decoder maps the marker/gap/length-5/"Hello" blob to `"Hello"`,
the marker/gap/0x81/LE-10/digits blob to `"0123456789"`, any blob without
the marker to `none`, and any blob whose declared length exceeds the bytes
remaining after the length field to `none`. -/
theorem claim_C5_theorem :
    parse_attributed_body blobHello = some "Hello" ∧
    parse_attributed_body blobDigits = some "0123456789" ∧
    (∀ b : List Nat, (∀ i, ¬ nsMarker <+: b.drop i) → parse_attributed_body b = none) ∧
    (∀ (b : List Nat) (pos : Nat), findFrom nsMarker b = some pos →
      (lenStart ((b.drop (pos + nsMarker.length)).drop 5)).2 +
          (lenStart ((b.drop (pos + nsMarker.length)).drop 5)).1 >
        ((b.drop (pos + nsMarker.length)).drop 5).length →
      parse_attributed_body b = none) := by
  refine ⟨by decide, by decide, ?_, ?_⟩
  · intro b h
    rw [parse_attributed_body, findFrom_none nsMarker b h]
  · intro b pos hf hgt
    rw [parse_attributed_body, hf]
    dsimp only
    by_cases h6 : (b.drop (pos + nsMarker.length)).length < 6
    · rw [if_pos h6]
    · rw [if_neg h6]
      rw [parseTail]
      rw [if_neg (by
        intro he
        have hnil := List.isEmpty_iff.mp he
        have hlen : ((b.drop (pos + nsMarker.length)).drop 5).length = 0 := by
          rw [hnil]; rfl
        rw [List.length_drop] at hlen
        omega)]
      dsimp only
      rw [if_pos hgt]

/-- C5, witness: the no-marker case at the empty blob and the
length-exceeds-data case at the `blobShort` blob. -/
theorem claim_C5_witness :
    parse_attributed_body [] = none ∧ parse_attributed_body blobShort = none :=
  ⟨claim_C5_theorem.2.2.1 [] (fun i => by simp [List.prefix_nil, nsMarker]),
   claim_C5_theorem.2.2.2 blobShort 0 (by decide) (by decide)⟩

/-- C7: the decoder is total and panic-free on arbitrary byte sequences —
with every Rust indexing and slicing operation routed through its explicit
bounds check, every input produces `some` result (no panic), and that
result is exactly the decoder's answer. -/
theorem claim_C7_theorem (blob : List Nat) :
    parseCheckedBody blob = some (parse_attributed_body blob) := by
  rw [parseCheckedBody, parse_attributed_body]
  cases hf : findFrom nsMarker blob with
  | none => rfl
  | some pos =>
    dsimp only
    have hle : pos + nsMarker.length ≤ blob.length := findFrom_le _ _ _ hf
    rw [show sliceFrom blob (pos + nsMarker.length) =
          some (blob.drop (pos + nsMarker.length)) from by
      rw [sliceFrom, if_pos hle]]
    dsimp only
    by_cases h6 : (blob.drop (pos + nsMarker.length)).length < 6
    · rw [if_pos h6, if_pos h6]
    · rw [if_neg h6, if_neg h6]
      rw [show sliceFrom (blob.drop (pos + nsMarker.length)) 5 =
            some ((blob.drop (pos + nsMarker.length)).drop 5) from by
        rw [sliceFrom, if_pos (by omega)]]
      exact parseCheckedTail_eq _

/-! ## Claims C1 and C9: message retention and chronological ordering -/

theorem buildMessages_eq (now : Int) (atts : Int → List Attachment) (rows : List MsgRow) :
    buildMessages now atts rows = (rows.filter (keepRow atts)).map (msgOfRow now atts) := by
  induction rows with
  | nil => rfl
  | cons r rs ih =>
    by_cases h : keepRow atts r = true
    · rw [buildMessages, if_pos h, List.filter_cons, if_pos h, List.map_cons, ih]
    · rw [buildMessages, if_neg h, List.filter_cons, if_neg h, ih]

theorem modifyAt_map_field {β : Type} (g : Message → β) (f : Message → Message)
    (hg : ∀ m, g (f m) = g m) (i : Nat) (l : List Message) :
    (modifyAt i f l).map g = l.map g := by
  induction l generalizing i with
  | nil => cases i <;> rfl
  | cons m ms ih =>
    cases i with
    | zero => simp [modifyAt, hg]
    | succ n => simp [modifyAt, ih]

theorem applyAnnotRow_map_field {β : Type} (g : Message → β)
    (hg : ∀ row e m, g (pushReaction row e m) = g m)
    (msgs : List Message) (row : AnnotRow) :
    (applyAnnotRow msgs row).map g = msgs.map g := by
  rw [applyAnnotRow]
  cases targetGuidOf row.associated_message_guid with
  | none => rfl
  | some target =>
    dsimp only
    cases lastIdxWith target msgs with
    | none => rfl
    | some idx =>
      dsimp only
      cases reaction_emoji row.associated_message_type with
      | none => rfl
      | some e => exact modifyAt_map_field g _ (hg row e) idx msgs

theorem load_reactions_map_field {β : Type} (g : Message → β)
    (hg : ∀ row e m, g (pushReaction row e m) = g m)
    (rows : List AnnotRow) (msgs : List Message) :
    (load_reactions msgs rows).map g = msgs.map g := by
  induction rows generalizing msgs with
  | nil => rfl
  | cons row rest ih =>
    rw [load_reactions, List.foldl_cons]
    rw [show List.foldl applyAnnotRow (applyAnnotRow msgs row) rest =
          load_reactions (applyAnnotRow msgs row) rest from rfl]
    rw [ih, applyAnnotRow_map_field g hg]

/-- C1 (amended): for rows with distinct rowids, a fetched row's message is
retained in the final list if and only if its final text is non-empty after
plain whitespace trimming (U+FFFC placeholders are NOT removed by the
retention test) or it has at least one attachment. -/
theorem claim_C1_theorem (now : Int) (atts : Int → List Attachment) (annots : List AnnotRow)
    (rows : List MsgRow) (hnodup : (rows.map MsgRow.rowid).Nodup)
    (r : MsgRow) (hr : r ∈ rows) :
    (∃ m ∈ load_messages now atts annots rows, m.rowid = r.rowid) ↔
      (¬ (strTrim (finalTextOf r.text r.attributedBody)).isEmpty = true ∨
        attachmentsFor atts r ≠ []) := by
  have hmapeq : (load_reactions (buildMessages now atts rows) annots).map Message.rowid
      = (buildMessages now atts rows).map Message.rowid :=
    load_reactions_map_field Message.rowid (fun _ _ _ => rfl) annots (buildMessages now atts rows)
  have hkey : (∃ m ∈ load_messages now atts annots rows, m.rowid = r.rowid) ↔
      r.rowid ∈ (rows.filter (keepRow atts)).map MsgRow.rowid := by
    rw [load_messages]
    constructor
    · rintro ⟨m, hm, hrm⟩
      have : m.rowid ∈ (load_reactions (buildMessages now atts rows) annots).map Message.rowid :=
        List.mem_map_of_mem _ (List.mem_reverse.mp hm)
      rw [hmapeq, buildMessages_eq, List.map_map] at this
      rw [← hrm]
      simpa using this
    · intro hmem
      have : r.rowid ∈ (load_reactions (buildMessages now atts rows) annots).map Message.rowid := by
        rw [hmapeq, buildMessages_eq, List.map_map]
        simpa using hmem
      rcases List.mem_map.mp this with ⟨m, hm, hrm⟩
      exact ⟨m, List.mem_reverse.mpr hm, hrm⟩
  rw [hkey]
  constructor
  · intro hmem
    rcases List.mem_map.mp hmem with ⟨r', hr', hrid⟩
    rcases List.mem_filter.mp hr' with ⟨hr'mem, hr'keep⟩
    have : r' = r := List.inj_on_of_nodup_map hnodup hr'mem hr hrid
    subst this
    have := hr'keep
    rw [keepRow, Bool.or_eq_true] at this
    rcases this with h | h
    · left
      simpa using h
    · right
      simpa using h
  · intro h
    have hkeep : keepRow atts r = true := by
      rw [keepRow, Bool.or_eq_true]
      rcases h with h | h
      · left
        simpa using h
      · right
        simpa using h
    exact List.mem_map_of_mem _ (List.mem_filter.mpr ⟨hr, hkeep⟩)

/-- A row whose text is a lone U+FFFC placeholder and that has no
attachments. -/
def rowFFFC : MsgRow := ⟨1, "g", some "\uFFFC", none, 0, false, false, none⟩

/-- C1, counterexample: the claim as stated — retention iff the normalized
display text (placeholders removed, trimmed) is non-empty or an attachment
exists — is false: the lone-U+FFFC, no-attachment row IS retained by the
code (its un-normalized trimmed text is non-empty), while the claimed
condition is false. -/
theorem claim_C1_counterexample :
    ¬ ((∃ m ∈ load_messages 0 (fun _ => []) [] [rowFFFC], m.rowid = rowFFFC.rowid) ↔
       (¬ (normalizeDisplay (finalTextOf rowFFFC.text rowFFFC.attributedBody)).isEmpty = true ∨
        attachmentsFor (fun _ => []) rowFFFC ≠ [])) := by
  decide

/-- C1, witness: the amended retention rule applied at the lone-U+FFFC
row, which the code keeps. -/
theorem claim_C1_witness :
    ∃ m ∈ load_messages 0 (fun _ => []) [] [rowFFFC], m.rowid = rowFFFC.rowid :=
  (claim_C1_theorem 0 (fun _ => []) [] [rowFFFC] (by decide) rowFFFC (by decide)).mpr
    (by decide)

/-! ## Claim C4: reaction target decoding and attachment -/

/-- Everything after the first `'/'`, or `none` when there is no slash:
the spec's "substring after the first slash". -/
def afterFirstSlash : List Char → Option (List Char)
  | [] => none
  | c :: rest => if c == '/' then some rest else afterFirstSlash rest

/-- The characters before the next `'/'`. -/
def upToSlash (l : List Char) : List Char :=
  l.takeWhile (fun c => !(c == '/'))

/-- The spec's wording of the decoding, amended at the `p:` arm: the target
is the second slash-separated field, i.e. the text after the first slash up
to (not including) the next slash. -/
def specDecodeTarget (s : String) : Option String :=
  if strStartsWith s "p:" then
    (afterFirstSlash s.data).map (fun l => String.mk (upToSlash l))
  else if strStartsWith s "bp:" then
    some (strDrop s 3)
  else
    some s

theorem splitOnSlash_head (l : List Char) :
    (splitOnSlash l).head? = some (upToSlash l) := by
  induction l with
  | nil => rfl
  | cons c rest ih =>
    rw [splitOnSlash]
    cases hs : splitOnSlash rest with
    | nil => rw [hs] at ih; simp at ih
    | cons h t =>
      rw [hs] at ih
      by_cases hc : c == '/'
      · have hc' : c = '/' := by simpa using hc
        simp [hc, upToSlash, hc']
      · have hc' : ¬ c = '/' := by simpa using hc
        simp only [hc, if_false, Bool.false_eq_true]
        simp only [List.head?_cons, Option.some.injEq] at ih ⊢
        simp [upToSlash, List.takeWhile_cons, hc', ih]

theorem splitOnSlash_get1 (l : List Char) :
    (splitOnSlash l).get? 1 = (afterFirstSlash l).map upToSlash := by
  induction l with
  | nil => rfl
  | cons c rest ih =>
    rw [splitOnSlash, afterFirstSlash]
    cases hs : splitOnSlash rest with
    | nil =>
      have := splitOnSlash_head rest
      rw [hs] at this
      simp at this
    | cons h t =>
      by_cases hc : c == '/'
      · simp only [hc, if_true]
        have hh := splitOnSlash_head rest
        rw [hs] at hh
        simp only [List.head?_cons, Option.some.injEq] at hh
        simp [hh]
      · simp only [hc, if_false, Bool.false_eq_true]
        rw [hs] at ih
        simpa using ih

/-- C4 decoding arm, amended: `targetGuidOf` agrees with the spec-worded
decode whose `p:` arm takes the second slash-separated field. -/
theorem targetGuidOf_eq_spec (s : String) : targetGuidOf s = specDecodeTarget s := by
  rw [targetGuidOf, specDecodeTarget]
  by_cases hp : strStartsWith s "p:"
  · simp only [hp, if_true]
    rw [splitOnSlash_get1]
    cases afterFirstSlash s.data <;> rfl
  · simp [hp]

/-- The reaction an annotation row produces. -/
def reactionOf (row : AnnotRow) : Reaction :=
  ⟨(reaction_emoji row.associated_message_type).getD "", row.is_from_me, row.sender⟩

/-- Does this annotation row target the GUID `g` with a recognized code? -/
def rowMatches (row : AnnotRow) (g : String) : Bool :=
  targetGuidOf row.associated_message_guid == some g &&
  (reaction_emoji row.associated_message_type).isSome

/-- A message with the reactions of all matching rows appended in row order. -/
def withReactionsFrom (rows : List AnnotRow) (m : Message) : Message :=
  ⟨m.rowid, m.guid, m.text, m.date, m.is_from_me, m.sender, m.attachments,
   m.reactions ++ (rows.filter (fun row => rowMatches row m.guid)).map reactionOf⟩

theorem modifyAt_get? (f : Message → Message) (i j : Nat) (l : List Message) :
    (modifyAt i f l).get? j = if i = j then (l.get? j).map f else l.get? j := by
  induction l generalizing i j with
  | nil => cases i <;> simp [modifyAt]
  | cons m ms ih =>
    cases i with
    | zero =>
      cases j with
      | zero => simp [modifyAt]
      | succ jj => simp [modifyAt]
    | succ ii =>
      cases j with
      | zero => simp [modifyAt]
      | succ jj => simpa [modifyAt, Nat.succ_inj] using ih ii jj

theorem lastIdxWith_none (g : String) (msgs : List Message)
    (h : lastIdxWith g msgs = none) : ∀ m ∈ msgs, m.guid ≠ g := by
  induction msgs with
  | nil => simp
  | cons m0 ms ih =>
    rw [lastIdxWith] at h
    cases hs : lastIdxWith g ms with
    | some i => rw [hs] at h; simp at h
    | none =>
      rw [hs] at h
      by_cases hg : m0.guid == g
      · rw [if_pos hg] at h; simp at h
      · intro m hm
        rcases List.mem_cons.mp hm with rfl | hm'
        · simpa using hg
        · exact ih hs m hm'

theorem lastIdxWith_get (g : String) (msgs : List Message) (j : Nat)
    (h : lastIdxWith g msgs = some j) (m : Message) (hm : msgs.get? j = some m) :
    m.guid = g := by
  induction msgs generalizing j with
  | nil => simp [lastIdxWith] at h
  | cons m0 ms ih =>
    rw [lastIdxWith] at h
    cases hs : lastIdxWith g ms with
    | some i =>
      rw [hs] at h
      simp only [Option.some.injEq] at h
      subst h
      exact ih i hs (by simpa using hm)
    | none =>
      rw [hs] at h
      by_cases hg : m0.guid == g
      · rw [if_pos hg] at h
        simp only [Option.some.injEq] at h
        subst h
        simp only [List.get?_cons_zero, Option.some.injEq] at hm
        subst hm
        simpa using hg
      · rw [if_neg hg] at h
        simp at h

theorem nodup_guid_ne (msgs : List Message)
    (hnodup : (msgs.map Message.guid).Nodup) (i j : Nat) (hij : i ≠ j)
    (mi mj : Message) (hi : msgs.get? i = some mi) (hj : msgs.get? j = some mj) :
    mi.guid ≠ mj.guid := by
  intro heq
  have hgi : (msgs.map Message.guid).get? i = some mi.guid := by
    rw [List.get?_map, hi]; rfl
  have hgj : (msgs.map Message.guid).get? j = some mj.guid := by
    rw [List.get?_map, hj]; rfl
  have hlt : i < (msgs.map Message.guid).length := by
    rw [List.length_map]
    rcases List.get?_eq_some.mp hi with ⟨h, _⟩
    exact h
  exact hij (List.get?_inj hlt hnodup (by rw [hgi, hgj, heq]))

theorem lastIdxWith_lt (g : String) (msgs : List Message) (j : Nat)
    (h : lastIdxWith g msgs = some j) : j < msgs.length := by
  induction msgs generalizing j with
  | nil => simp [lastIdxWith] at h
  | cons m0 ms ih =>
    rw [lastIdxWith] at h
    cases hs : lastIdxWith g ms with
    | some i =>
      rw [hs] at h
      simp only [Option.some.injEq] at h
      subst h
      have := ih i hs
      simp only [List.length_cons]
      omega
    | none =>
      rw [hs] at h
      by_cases hg : m0.guid == g
      · rw [if_pos hg] at h
        simp only [Option.some.injEq] at h
        subst h
        simp
      · rw [if_neg hg] at h
        simp at h

theorem applyAnnotRow_get? (msgs : List Message) (row : AnnotRow)
    (hnodup : (msgs.map Message.guid).Nodup) (i : Nat) :
    (applyAnnotRow msgs row).get? i = (msgs.get? i).map (fun m =>
      if rowMatches row m.guid then
        pushReaction row ((reaction_emoji row.associated_message_type).getD "") m
      else m) := by
  rw [applyAnnotRow]
  cases ht : targetGuidOf row.associated_message_guid with
  | none =>
    dsimp only
    cases hmi : msgs.get? i with
    | none => rfl
    | some m => simp [rowMatches, ht]
  | some target =>
    dsimp only
    cases hidx : lastIdxWith target msgs with
    | none =>
      dsimp only
      cases hmi : msgs.get? i with
      | none => rfl
      | some m =>
        have hne : m.guid ≠ target :=
          lastIdxWith_none target msgs hidx m (List.get?_mem hmi)
        have hfalse : rowMatches row m.guid = false := by
          rw [rowMatches, ht]
          simp [Ne.symm hne]
        simp [hfalse]
    | some idx =>
      dsimp only
      cases he : reaction_emoji row.associated_message_type with
      | none =>
        dsimp only
        cases hmi : msgs.get? i with
        | none => rfl
        | some m =>
          have hfalse : rowMatches row m.guid = false := by
            rw [rowMatches, he]
            simp
          simp [hfalse]
      | some e =>
        dsimp only
        rw [modifyAt_get?]
        by_cases hij : idx = i
        · subst hij
          cases hmi : msgs.get? idx with
          | none => simp
          | some m =>
            have hg : m.guid = target := lastIdxWith_get target msgs idx hidx m hmi
            have htrue : rowMatches row m.guid = true := by
              rw [rowMatches, ht, he, hg]
              simp
            simp [htrue, he]
        · rw [if_neg hij]
          cases hmi : msgs.get? i with
          | none => rfl
          | some m =>
            have hlt : idx < msgs.length := lastIdxWith_lt target msgs idx hidx
            have hidx' : msgs.get? idx = some (msgs.get ⟨idx, hlt⟩) :=
              List.get?_eq_get hlt
            have hgidx : (msgs.get ⟨idx, hlt⟩).guid = target :=
              lastIdxWith_get target msgs idx hidx _ hidx'
            have hne : m.guid ≠ target := by
              rw [← hgidx]
              exact nodup_guid_ne msgs hnodup i idx (fun hh => hij hh.symm) m _ hmi hidx'
            have hfalse : rowMatches row m.guid = false := by
              rw [rowMatches, ht]
              simp [Ne.symm hne]
            simp [hfalse]

theorem load_reactions_get? (rows : List AnnotRow) (msgs : List Message)
    (hnodup : (msgs.map Message.guid).Nodup) (i : Nat) :
    (load_reactions msgs rows).get? i = (msgs.get? i).map (withReactionsFrom rows) := by
  induction rows generalizing msgs with
  | nil =>
    rw [load_reactions]
    simp only [List.foldl_nil]
    cases hmi : msgs.get? i with
    | none => rfl
    | some m =>
      simp only [Option.map_some']
      congr 1
      cases m
      simp [withReactionsFrom]
  | cons row rest ih =>
    rw [load_reactions, List.foldl_cons]
    rw [show List.foldl applyAnnotRow (applyAnnotRow msgs row) rest =
          load_reactions (applyAnnotRow msgs row) rest from rfl]
    have hnodup' : ((applyAnnotRow msgs row).map Message.guid).Nodup := by
      rw [applyAnnotRow_map_field Message.guid (fun _ _ _ => rfl) msgs row]
      exact hnodup
    rw [ih (applyAnnotRow msgs row) hnodup']
    rw [applyAnnotRow_get? msgs row hnodup i]
    rw [Option.map_map]
    cases hmi : msgs.get? i with
    | none => rfl
    | some m =>
      simp only [Option.map_some', Function.comp]
      congr 1
      by_cases hmatch : rowMatches row m.guid = true
      · rw [if_pos hmatch]
        rw [withReactionsFrom, withReactionsFrom]
        dsimp only [pushReaction]
        rw [List.filter_cons, if_pos hmatch, List.map_cons]
        simp [reactionOf]
      · rw [if_neg hmatch]
        rw [withReactionsFrom, withReactionsFrom]
        rw [List.filter_cons, if_neg hmatch]

/-- C4 (amended): target decoding takes the SECOND slash-separated field of
a `p:`-prefixed reference (not everything after the first slash), strips
three characters from a `bp:`-prefixed one, and uses the raw string
otherwise; the recognized codes are exactly 2000-2006; and, for message
lists with pairwise-distinct GUIDs, each message's reaction list gains
exactly the reactions of the annotation rows whose decoded target equals its
GUID and whose code is recognized, in row-arrival order. -/
theorem claim_C4_theorem :
    (∀ s : String, targetGuidOf s = specDecodeTarget s) ∧
    (∀ code : Int, (reaction_emoji code).isSome = true ↔
      (code = 2000 ∨ code = 2001 ∨ code = 2002 ∨ code = 2003 ∨
       code = 2004 ∨ code = 2005 ∨ code = 2006)) ∧
    (∀ (msgs : List Message) (rows : List AnnotRow),
      (msgs.map Message.guid).Nodup → ∀ i : Nat,
      (load_reactions msgs rows).get? i = (msgs.get? i).map (withReactionsFrom rows)) := by
  refine ⟨targetGuidOf_eq_spec, ?_, fun msgs rows h i => load_reactions_get? rows msgs h i⟩
  intro code
  rw [reaction_emoji, Option.isSome_map', List.find?_isSome]
  simp only [REACTION_EMOJI, List.mem_cons, List.not_mem_nil, or_false]
  constructor
  · rintro ⟨x, hx, hbeq⟩
    have hx1 : x.1 = code := by simpa using hbeq
    rcases hx with rfl | rfl | rfl | rfl | rfl | rfl | rfl <;> simp_all
  · rintro (rfl | rfl | rfl | rfl | rfl | rfl | rfl)
    · exact ⟨(2000, "❤️"), by simp, by simp⟩
    · exact ⟨(2001, "👍"), by simp, by simp⟩
    · exact ⟨(2002, "👎"), by simp, by simp⟩
    · exact ⟨(2003, "😂"), by simp, by simp⟩
    · exact ⟨(2004, "‼️"), by simp, by simp⟩
    · exact ⟨(2005, "❓"), by simp, by simp⟩
    · exact ⟨(2006, "🫶"), by simp, by simp⟩

/-- A message whose GUID itself contains a slash. -/
def msgSlash : Message := ⟨1, "a/b", "hi", 0, false, none, [], []⟩

/-- An annotation row referencing that GUID in `p:<index>/<guid>` form with
a recognized code. -/
def annotSlash : AnnotRow := ⟨"p:0/a/b", 2000, false, none⟩

/-- C4, counterexample: the substring after the first slash of `"p:0/a/b"`
is `"a/b"`, exactly the message's GUID, and code 2000 is recognized, so the
claim demands a reaction — but the code takes `split('/').nth(1) = "a"` and
appends nothing. -/
theorem claim_C4_counterexample :
    (afterFirstSlash ("p:0/a/b").data).map String.mk = some "a/b" ∧
    msgSlash.guid = "a/b" ∧
    reaction_emoji 2000 = some "❤️" ∧
    targetGuidOf "p:0/a/b" = some "a" ∧
    (load_reactions [msgSlash] [annotSlash]).map Message.reactions = [[]] := by
  decide

/-- A direct-GUID message and a `p:0/`-referencing reaction row. -/
def msgPlain : Message := ⟨1, "g1", "hi", 0, false, none, [], []⟩

/-- A loved-reaction row targeting `msgPlain`. -/
def annotPlain : AnnotRow := ⟨"p:0/g1", 2000, true, some "alice"⟩

/-- C4, witness: the characterization applied at a concrete one-message,
one-row store; the message gains exactly the loved reaction. -/
theorem claim_C4_witness :
    (load_reactions [msgPlain] [annotPlain]).get? 0 =
      ([msgPlain].get? 0).map (withReactionsFrom [annotPlain]) ∧
    (load_reactions [msgPlain] [annotPlain]).map Message.reactions =
      [[⟨"❤️", true, some "alice"⟩]] :=
  ⟨claim_C4_theorem.2.2 [msgPlain] [annotPlain] (by decide) 0, by decide⟩

end Aeromessage
